import Mathlib

/-!
Shallow embedding of `f1_data_collector.py`.

Records and stored documents are association lists from field names to BSON-like
values.  A MongoDB database is a list of named collections; a collection is a
list of documents.  `update_one` models
`collection.update_one(filter_query, {"$set": item}, upsert=True)`:
the first document matching the filter is merged with `item` (`$set`
semantics), and if none matches, a new document seeded from the equality
filter and updated with `item` is inserted.  External effects (the HTTP
response, per-operation store errors, the connection check) are supplied as
explicit oracles.
-/

inductive Value where
  | vNull : Value
  | vBool : Bool → Value
  | vNum : ℚ → Value
  | vStr : String → Value
deriving DecidableEq

abbrev Doc := List (String × Value)

abbrev Store := List Doc

abbrev DB := List (String × Store)

/-- First binding of a field in a document (Python `dict` lookup / `item.get(key)`,
returning `none` when the field is absent). -/
def docGet : Doc → String → Option Value
  | [], _ => none
  | (k, v) :: rest, key => if k = key then some v else docGet rest key

/-- Left-biased choice on optional values. -/
def firstSome (a b : Option Value) : Option Value :=
  match a with
  | some v => some v
  | none => b

/-- Set one field of a document in place, appending it when absent
(one field assignment of a MongoDB `$set`). -/
def setField : Doc → String → Value → Doc
  | [], key, v => [(key, v)]
  | (k, w) :: rest, key, v =>
    if k = key then (key, v) :: rest else (k, w) :: setField rest key v

/-- MongoDB `$set` with document `item`: every field of `item` is written into
`d`; fields of `d` not mentioned in `item` are preserved. -/
def applySet : Doc → Doc → Doc
  | d, [] => d
  | d, (k, v) :: rest => applySet (setField d k v) rest

/-- `{key: item.get(key) for key in unique_keys}` (line 105): the match filter,
mapping each declared key field to the record value, or to null when the
record lacks the field. -/
def filterQuery (item : Doc) (unique_keys : List String) : Doc :=
  unique_keys.map (fun key => (key, (docGet item key).getD Value.vNull))

/-- MongoDB equality-filter matching: `{k: v}` matches a document whose `k`
field equals `v`, where an absent field is treated as null (so a null filter
value matches both an explicit null and a missing field). -/
def matchesFilter (d : Doc) (filter_query : Doc) : Bool :=
  filter_query.all (fun p => decide ((docGet d p.1).getD Value.vNull = p.2))

/-- `collection.update_one(filter_query, {"$set": item}, upsert=True)`
(lines 108-112).  Returns the new collection, whether a document was upserted
(`result.upserted_id` non-null), and `result.modified_count`.  The first
matching document is `$set`-merged; with no match a new document seeded from
the equality filter and `$set` with `item` is inserted. -/
def update_one : Store → Doc → Doc → Store × Bool × ℕ
  | [], filter_query, item => ([applySet filter_query item], true, 0)
  | d :: rest, filter_query, item =>
    if matchesFilter d filter_query then
      (applySet d item :: rest, false, if applySet d item = d then 0 else 1)
    else
      let r := update_one rest filter_query item
      (d :: r.1, r.2.1, r.2.2)

/-- The `for item in data` loop of `save_to_collection` (lines 103-119).
`err i` is the external store-failure oracle: `some msg` means the `i`-th
`update_one` call raises `PyMongoError msg`, in which case the loop logs and
continues with the next item, touching neither the store nor the counters.
Returns the final collection, `upserted_count` and `modified_count`. -/
def saveRecords : Store → List Doc → List String → (ℕ → Option String) → ℕ → Store × ℕ × ℕ
  | s, [], _, _, _ => (s, 0, 0)
  | s, item :: rest, unique_keys, err, i =>
    match err i with
    | some _ => saveRecords s rest unique_keys err (i + 1)
    | none =>
      let r := update_one s (filterQuery item unique_keys) item
      let r2 := saveRecords r.1 rest unique_keys err (i + 1)
      (r2.1, (if r.2.1 then 1 else 0) + r2.2.1, r.2.2 + r2.2.2)

/-- The no-failure oracle: every store operation succeeds. -/
def errNone : ℕ → Option String := fun _ => none

/-- The records of a batch whose store operation does not fail under `err`,
numbering from index `i`. -/
def survivors : List Doc → (ℕ → Option String) → ℕ → List Doc
  | [], _, _ => []
  | item :: rest, err, i =>
    if (err i).isSome then survivors rest err (i + 1)
    else item :: survivors rest err (i + 1)

/-- Number of operations of a batch that fail under `err`, numbering from `i`. -/
def failedFrom : List Doc → (ℕ → Option String) → ℕ → ℕ
  | [], _, _ => 0
  | _ :: rest, err, i =>
    (if (err i).isSome then 1 else 0) + failedFrom rest err (i + 1)

/-- `db[collection_name]`: an absent collection reads as empty. -/
def getCol : DB → String → Store
  | [], _ => []
  | (n, s) :: rest, name => if n = name then s else getCol rest name

/-- Write back one collection of the database. -/
def setCol : DB → String → Store → DB
  | [], name, s => [(name, s)]
  | (n, t) :: rest, name, s =>
    if n = name then (name, s) :: rest else (n, t) :: setCol rest name s

/-- Observable external operations: one HTTP request, one collection access. -/
inductive Ev where
  | evFetch : String → Ev
  | evGetCollection : String → Ev
deriving DecidableEq

/-- Result of `save_to_collection`: the database after the call, the two
counters it accumulates (lines 100-116), and the store accesses it performed. -/
structure SaveResult where
  db : DB
  upserted : ℕ
  modified : ℕ
  trace : List Ev
deriving DecidableEq

/-- `save_to_collection(db, data, collection_name, unique_keys)` (lines 79-124).
Empty input returns at once (lines 93-95) without touching the store; otherwise
the collection is read, every record is upserted in order (per-operation
failures are skipped, line 117-119), and the collection is written back. -/
def save_to_collection (db : DB) (data : List Doc) (collection_name : String)
    (unique_keys : List String) (err : ℕ → Option String) : SaveResult :=
  if data = [] then ⟨db, 0, 0, []⟩
  else
    let collection := getCol db collection_name
    let r := saveRecords collection data unique_keys err 0
    ⟨setCol db collection_name r.1, r.2.1, r.2.2, [Ev.evGetCollection collection_name]⟩

def BASE_URL : String := "https://api.openf1.org/v1"

def DB_NAME : String := "openf1_data"

/-- Outcome of one `requests.get` call, supplied by the environment:
a JSON list of records, a transport-level `RequestException`, or a non-2xx
status (which `raise_for_status` turns into an `HTTPError`). -/
inductive FetchOutcome where
  | success : List Doc → FetchOutcome
  | transportError : String → FetchOutcome
  | httpError : ℕ → FetchOutcome
deriving DecidableEq

/-- `fetch_data(endpoint, params)` (lines 55-76): one GET against
`BASE_URL/endpoint`.  Every `RequestException` — transport errors and the
`HTTPError` raised by `raise_for_status` alike — is caught, logged, and turned
into an empty list. -/
def fetch_data (http : String → List (String × Option String) → FetchOutcome)
    (endpoint : String) (params : List (String × Option String)) : List Doc × List Ev :=
  let url := BASE_URL ++ "/" ++ endpoint
  match http url params with
  | .success data => (data, [Ev.evFetch url])
  | .transportError _ => ([], [Ev.evFetch url])
  | .httpError _ => ([], [Ev.evFetch url])

/-- `connect_to_mongo(uri, db_name)` (lines 29-52).  `uri` is the result of
`os.getenv` (`none` when unset); `if not uri` also treats the empty string as
missing.  `connOk` is the outcome of the `ismaster` connection check; a
`PyMongoError` is caught and turned into `None`.  On success `client[db_name]`
is a handle to the external database state `db0`. -/
def connect_to_mongo (uri : Option String) (db_name : String) (connOk : Bool)
    (db0 : DB) : Option DB :=
  if uri = none ∨ uri = some "" then none
  else if connOk then some db0 else none

/-- `main()` (lines 127-150): connect, then `if not db: return` (line 134).
When the connection fails, `db` is `None`, `not None` is `True`, and `main`
returns at once with the external database untouched and no operation
performed.  When the connection succeeds, `db` is a PyMongo `Database`, and
`not db` performs truth-value testing on it, which PyMongo forbids:
`Database.__bool__` raises `NotImplementedError`, so the script crashes at
line 134 before any of the three fetch-and-save jobs (lines 138-148) runs —
those jobs are unreachable code.  `.error` carries the uncaught exception;
`.ok` carries the final database state and the trace of external operations.
(Named `main'` because Lean reserves `main` for an `IO` entry point.) -/
def main' (db0 : DB) (mongoUri : Option String) (connOk : Bool)
    (sessionKeyDemo : Option String)
    (http : String → List (String × Option String) → FetchOutcome)
    (errS errD errL : ℕ → Option String) : Except String (DB × List Ev) :=
  match connect_to_mongo mongoUri DB_NAME connOk db0 with
  | none => .ok (db0, [])
  | some _db =>
    .error "NotImplementedError: Database objects do not implement truth value testing"

/-- Projection of a document onto a list of key fields, reading an absent field
as null — exactly the data the match filter compares. -/
def keyProj (d : Doc) (unique_keys : List String) : List Value :=
  unique_keys.map (fun k => (docGet d k).getD Value.vNull)

/-- A document with no repeated field names (every Python `dict` satisfies this). -/
def NodupKeys (d : Doc) : Prop := (d.map Prod.fst).Nodup

instance (d : Doc) : Decidable (NodupKeys d) := by
  unfold NodupKeys
  infer_instance

/-- Key fields of the `laps` collection (line 148). -/
def lapKeys : List String := ["session_key", "driver_number", "lap_number"]

/-- First lap record of the concrete scenario (time 91.2, written as the
kernel-computable rational `mkRat 912 10`). -/
def lapRec1 : Doc :=
  [("session_key", .vNum (mkRat 1 1)), ("driver_number", .vNum (mkRat 44 1)),
   ("lap_number", .vNum (mkRat 1 1)), ("time", .vNum (mkRat 912 10))]

/-- Second lap record of the concrete scenario (time 90.8, written as the
kernel-computable rational `mkRat 908 10`). -/
def lapRec2 : Doc :=
  [("session_key", .vNum (mkRat 1 1)), ("driver_number", .vNum (mkRat 44 1)),
   ("lap_number", .vNum (mkRat 1 1)), ("time", .vNum (mkRat 908 10))]

/-- A store whose `"c"` collection holds one document with an `"extra"` field,
used to test what an upsert does to fields the incoming record omits. -/
def c3_db : DB := [("c", [[("k", .vStr "a"), ("extra", .vStr "keepme")]])]

/-- A record with the same key value as the stored document of `c3_db` but
without the `"extra"` field. -/
def c3_record : Doc := [("k", .vStr "a")]

/-- A batch of three records whose middle operation will fail. -/
def c4_data : List Doc := [[("k", .vStr "a")], [("k", .vStr "bad")], [("k", .vStr "b")]]

/-- Failure oracle that fails exactly the second store operation. -/
def errAt1 : ℕ → Option String := fun i => if i = 1 then some "write error" else none

/-- The same record twice: the second occurrence matches and changes nothing. -/
def c9_data : List Doc := [[("k", .vStr "a")], [("k", .vStr "a")]]

/-- HTTP oracle: every request succeeds with zero records. -/
def httpOk : String → List (String × Option String) → FetchOutcome :=
  fun _ _ => .success []

/-! ### Basic lemmas about documents, `$set`, and filters -/

theorem firstSome_assoc (a b c : Option Value) :
    firstSome (firstSome a b) c = firstSome a (firstSome b c) := by
  cases a <;> rfl

theorem firstSome_none_right (a : Option Value) : firstSome a none = a := by
  cases a <;> rfl

theorem firstSome_ite (c : Prop) [Decidable c] (v : Value) (y : Option Value) :
    firstSome (if c then some v else none) y = if c then some v else y := by
  split <;> rfl

theorem docGet_eq_none_of_not_mem (d : Doc) (k : String) (h : k ∉ d.map Prod.fst) :
    docGet d k = none := by
  induction d with
  | nil => rfl
  | cons p rest ih =>
    obtain ⟨k0, v0⟩ := p
    simp only [List.map_cons, List.mem_cons, not_or] at h
    simp only [docGet]
    rw [if_neg (fun e => h.1 e.symm), ih h.2]

theorem docGet_append (xs ys : Doc) (k : String) :
    docGet (xs ++ ys) k = firstSome (docGet xs k) (docGet ys k) := by
  induction xs with
  | nil => rfl
  | cons p rest ih =>
    obtain ⟨k0, v0⟩ := p
    simp only [List.cons_append, docGet]
    split
    · rfl
    · exact ih

theorem docGet_setField (d : Doc) (key : String) (v : Value) (k : String) :
    docGet (setField d key v) k = if key = k then some v else docGet d k := by
  induction d with
  | nil => rfl
  | cons p rest ih =>
    obtain ⟨k0, v0⟩ := p
    simp only [setField]
    by_cases h0 : k0 = key
    · rw [if_pos h0]
      by_cases h2 : key = k
      · simp [docGet, h2]
      · have h1 : ¬k0 = k := by rw [h0]; exact h2
        simp [docGet, h1, h2]
    · rw [if_neg h0]
      simp only [docGet, ih]
      by_cases h1 : k0 = k <;> by_cases h2 : key = k
      · exact absurd (h1.trans h2.symm) h0
      · simp [h1, h2]
      · simp [h1, h2]
      · simp [h1, h2]

theorem docGet_applySet (it d : Doc) (k : String) :
    docGet (applySet d it) k = firstSome (docGet it.reverse k) (docGet d k) := by
  induction it generalizing d with
  | nil => rfl
  | cons p rest ih =>
    obtain ⟨k0, v0⟩ := p
    simp only [applySet, List.reverse_cons]
    rw [ih, docGet_setField, docGet_append, firstSome_assoc]
    congr 1
    rw [show docGet [(k0, v0)] k = if k0 = k then some v0 else none from rfl, firstSome_ite]

theorem docGet_reverse_of_nodup (d : Doc) (h : NodupKeys d) (k : String) :
    docGet d.reverse k = docGet d k := by
  induction d with
  | nil => rfl
  | cons p rest ih =>
    obtain ⟨k0, v0⟩ := p
    unfold NodupKeys at h
    simp only [List.map_cons, List.nodup_cons] at h
    simp only [List.reverse_cons, docGet]
    rw [docGet_append, ih h.2]
    by_cases hk : k0 = k
    · rw [if_pos hk, docGet_eq_none_of_not_mem rest k (hk ▸ h.1)]
      show docGet [(k0, v0)] k = some v0
      simp [docGet, hk]
    · rw [if_neg hk,
        show docGet [(k0, v0)] k = if k0 = k then some v0 else none from rfl,
        if_neg hk, firstSome_none_right]

theorem docGet_filterQuery_of_mem (it : Doc) (keys : List String) (k : String)
    (hk : k ∈ keys) :
    docGet (filterQuery it keys) k = some ((docGet it k).getD Value.vNull) := by
  induction keys with
  | nil => cases hk
  | cons k0 rest ih =>
    simp only [filterQuery, List.map_cons, docGet]
    by_cases h : k0 = k
    · rw [if_pos h, h]
    · rw [if_neg h]
      rcases List.mem_cons.mp hk with h' | h'
      · exact absurd h'.symm h
      · exact ih h'

theorem keyProj_eq_iff (d e : Doc) (keys : List String) :
    keyProj d keys = keyProj e keys ↔
      ∀ k ∈ keys, (docGet d k).getD Value.vNull = (docGet e k).getD Value.vNull := by
  induction keys with
  | nil => simp [keyProj]
  | cons k0 rest ih =>
    simp only [keyProj, List.map_cons, List.cons.injEq, List.forall_mem_cons]
    exact and_congr Iff.rfl ih

theorem matchesFilter_filterQuery (d it : Doc) (keys : List String) :
    matchesFilter d (filterQuery it keys) = true ↔ keyProj d keys = keyProj it keys := by
  induction keys with
  | nil => simp [matchesFilter, filterQuery, keyProj]
  | cons k0 rest ih =>
    simp only [matchesFilter, filterQuery, keyProj, List.map_cons, List.all_cons,
      Bool.and_eq_true, decide_eq_true_eq, List.cons.injEq]
    exact and_congr Iff.rfl ih

theorem keyProj_applySet_of_eq (d it : Doc) (keys : List String)
    (hn : NodupKeys it) (hm : keyProj d keys = keyProj it keys) :
    keyProj (applySet d it) keys = keyProj d keys := by
  rw [keyProj_eq_iff]
  intro k hk
  rw [docGet_applySet, docGet_reverse_of_nodup it hn]
  cases h : docGet it k with
  | none => rfl
  | some v =>
    have := (keyProj_eq_iff d it keys).mp hm k hk
    rw [h] at this
    simp only [Option.getD_some] at this
    simp only [firstSome, Option.getD_some]
    exact this.symm

theorem keyProj_applySet_filterQuery (it : Doc) (keys : List String)
    (hn : NodupKeys it) :
    keyProj (applySet (filterQuery it keys) it) keys = keyProj it keys := by
  rw [keyProj_eq_iff]
  intro k hk
  rw [docGet_applySet, docGet_reverse_of_nodup it hn]
  cases h : docGet it k with
  | none =>
    simp only [firstSome]
    rw [docGet_filterQuery_of_mem it keys k hk, h]
    rfl
  | some v => rfl

/-! ### Lemmas about `update_one` -/

theorem update_one_length (s : Store) (f it : Doc) :
    (update_one s f it).1.length
      = s.length + (if (update_one s f it).2.1 = true then 1 else 0) := by
  induction s with
  | nil => rfl
  | cons d rest ih =>
    simp only [update_one]
    split
    · simp
    · simp only [List.length_cons, ih]
      omega

theorem update_one_not_upserted (s : Store) (f it : Doc)
    (h : ∃ d ∈ s, matchesFilter d f = true) :
    (update_one s f it).2.1 = false := by
  induction s with
  | nil => simp at h
  | cons d rest ih =>
    simp only [update_one]
    split
    · rfl
    · rename_i hm
      rcases h with ⟨d', hd', hmf⟩
      rcases List.mem_cons.mp hd' with h' | h'
      · exact absurd (h' ▸ hmf) (by simpa using hm)
      · exact ih ⟨d', h', hmf⟩

theorem update_one_counts_le (s : Store) (f it : Doc) :
    (if (update_one s f it).2.1 = true then 1 else 0) + (update_one s f it).2.2 ≤ 1 := by
  induction s with
  | nil => simp [update_one]
  | cons d rest ih =>
    simp only [update_one]
    split
    · split <;> simp
    · exact ih

theorem update_one_preserves_keyProj (s : Store) (it : Doc) (keys : List String)
    (hn : NodupKeys it) (p : List Value)
    (h : ∃ d ∈ s, keyProj d keys = p) :
    ∃ d' ∈ (update_one s (filterQuery it keys) it).1, keyProj d' keys = p := by
  induction s with
  | nil => simp at h
  | cons d rest ih =>
    rcases h with ⟨d', hd', hp⟩
    simp only [update_one]
    split
    · rename_i hm
      rcases List.mem_cons.mp hd' with h' | h'
      · refine ⟨applySet d it, List.mem_cons_self _ _, ?_⟩
        rw [keyProj_applySet_of_eq d it keys hn
          ((matchesFilter_filterQuery d it keys).mp hm), ← h', hp]
      · exact ⟨d', List.mem_cons_of_mem _ h', hp⟩
    · rcases List.mem_cons.mp hd' with h' | h'
      · exact ⟨d, List.mem_cons_self _ _, h' ▸ hp⟩
      · rcases ih ⟨d', h', hp⟩ with ⟨e, he, hep⟩
        exact ⟨e, List.mem_cons_of_mem _ he, hep⟩

theorem update_one_creates_match (s : Store) (it : Doc) (keys : List String)
    (hn : NodupKeys it) :
    ∃ d' ∈ (update_one s (filterQuery it keys) it).1,
      keyProj d' keys = keyProj it keys := by
  induction s with
  | nil =>
    exact ⟨applySet (filterQuery it keys) it, by simp [update_one],
      keyProj_applySet_filterQuery it keys hn⟩
  | cons d rest ih =>
    simp only [update_one]
    split
    · rename_i hm
      refine ⟨applySet d it, List.mem_cons_self _ _, ?_⟩
      rw [keyProj_applySet_of_eq d it keys hn
        ((matchesFilter_filterQuery d it keys).mp hm)]
      exact (matchesFilter_filterQuery d it keys).mp hm
    · rcases ih with ⟨e, he, hep⟩
      exact ⟨e, List.mem_cons_of_mem _ he, hep⟩

theorem update_one_docGet_of_absent (s : Store) (f it : Doc) (k : String)
    (hit : docGet it.reverse k = none) (j : ℕ) (hj : j < s.length) :
    docGet ((update_one s f it).1.getD j []) k = docGet (s.getD j []) k := by
  induction s generalizing j with
  | nil => cases hj
  | cons d rest ih =>
    simp only [update_one]
    split
    · cases j with
      | zero =>
        simp only [List.getD_cons_zero]
        rw [docGet_applySet, hit]
        rfl
      | succ j' => simp only [List.getD_cons_succ]
    · cases j with
      | zero => simp only [List.getD_cons_zero]
      | succ j' =>
        simp only [List.getD_cons_succ]
        exact ih j' (Nat.lt_of_succ_lt_succ hj)

/-! ### Lemmas about the `save_to_collection` loop -/

theorem saveRecords_errNone_index (s : Store) (data : List Doc) (keys : List String)
    (i j : ℕ) :
    saveRecords s data keys errNone i = saveRecords s data keys errNone j := by
  induction data generalizing s i j with
  | nil => rfl
  | cons it rest ih =>
    simp only [saveRecords, errNone]
    rw [ih _ (i + 1) (j + 1)]

theorem saveRecords_survivors (s : Store) (data : List Doc) (keys : List String)
    (err : ℕ → Option String) (i : ℕ) :
    saveRecords s data keys err i
      = saveRecords s (survivors data err i) keys errNone i := by
  induction data generalizing s i with
  | nil => rfl
  | cons it rest ih =>
    cases h : err i with
    | some msg =>
      simp only [saveRecords, h, survivors, Option.isSome_some, if_pos]
      rw [ih, saveRecords_errNone_index _ _ _ (i + 1) i]
    | none =>
      simp only [saveRecords, h, survivors, Option.isSome_none, Bool.false_eq_true,
        if_neg, errNone]
      rw [ih]

theorem saveRecords_counts_le (s : Store) (data : List Doc) (keys : List String)
    (err : ℕ → Option String) (i : ℕ) :
    (saveRecords s data keys err i).2.1 + (saveRecords s data keys err i).2.2
      + failedFrom data err i ≤ data.length := by
  induction data generalizing s i with
  | nil => simp [saveRecords, failedFrom]
  | cons it rest ih =>
    cases h : err i with
    | some msg =>
      simp only [saveRecords, h, failedFrom, Option.isSome_some, if_pos, List.length_cons]
      have := ih s (i + 1)
      omega
    | none =>
      have h0 : failedFrom (it :: rest) err i = failedFrom rest err (i + 1) := by
        simp [failedFrom, h]
      simp only [saveRecords, h, List.length_cons]
      rw [h0]
      have h1 := update_one_counts_le s (filterQuery it keys) it
      have h2 := ih (update_one s (filterQuery it keys) it).1 (i + 1)
      omega

theorem saveRecords_preserves_keyProj (s : Store) (data : List Doc) (keys : List String)
    (i : ℕ) (hn : ∀ it ∈ data, NodupKeys it) (p : List Value)
    (h : ∃ d ∈ s, keyProj d keys = p) :
    ∃ d' ∈ (saveRecords s data keys errNone i).1, keyProj d' keys = p := by
  induction data generalizing s i with
  | nil => exact h
  | cons it rest ih =>
    simp only [saveRecords, errNone]
    exact ih _ (i + 1) (fun x hx => hn x (List.mem_cons_of_mem _ hx))
      (update_one_preserves_keyProj s it keys (hn it (List.mem_cons_self _ _)) p h)

theorem saveRecords_creates_matches (s : Store) (data : List Doc) (keys : List String)
    (i : ℕ) (hn : ∀ it ∈ data, NodupKeys it) :
    ∀ it ∈ data, ∃ d' ∈ (saveRecords s data keys errNone i).1,
      keyProj d' keys = keyProj it keys := by
  induction data generalizing s i with
  | nil => intro it hit; cases hit
  | cons it0 rest ih =>
    intro it hit
    simp only [saveRecords, errNone]
    rcases List.mem_cons.mp hit with h' | h'
    · subst h'
      exact saveRecords_preserves_keyProj _ rest keys (i + 1)
        (fun x hx => hn x (List.mem_cons_of_mem _ hx)) _
        (update_one_creates_match s it keys (hn it (List.mem_cons_self _ _)))
    · exact ih _ (i + 1) (fun x hx => hn x (List.mem_cons_of_mem _ hx)) it h'

theorem saveRecords_no_new (s : Store) (data : List Doc) (keys : List String) (i : ℕ)
    (hn : ∀ it ∈ data, NodupKeys it)
    (hm : ∀ it ∈ data, ∃ d ∈ s, keyProj d keys = keyProj it keys) :
    (saveRecords s data keys errNone i).2.1 = 0
      ∧ (saveRecords s data keys errNone i).1.length = s.length := by
  induction data generalizing s i with
  | nil => exact ⟨rfl, rfl⟩
  | cons it rest ih =>
    simp only [saveRecords, errNone]
    have hmatch : ∃ d ∈ s, matchesFilter d (filterQuery it keys) = true := by
      rcases hm it (List.mem_cons_self _ _) with ⟨d, hd, hp⟩
      exact ⟨d, hd, (matchesFilter_filterQuery d it keys).mpr hp⟩
    have hup : (update_one s (filterQuery it keys) it).2.1 = false :=
      update_one_not_upserted s (filterQuery it keys) it hmatch
    have hlen : (update_one s (filterQuery it keys) it).1.length = s.length := by
      rw [update_one_length s (filterQuery it keys) it, hup]
      simp
    have hm' : ∀ x ∈ rest, ∃ d ∈ (update_one s (filterQuery it keys) it).1,
        keyProj d keys = keyProj x keys := fun x hx =>
      update_one_preserves_keyProj s it keys (hn it (List.mem_cons_self _ _)) _
        (hm x (List.mem_cons_of_mem _ hx))
    have := ih (update_one s (filterQuery it keys) it).1 (i + 1)
      (fun x hx => hn x (List.mem_cons_of_mem _ hx)) hm'
    refine ⟨?_, by rw [this.2, hlen]⟩
    rw [hup]
    simpa using this.1

theorem saveRecords_docGet_of_absent (s : Store) (data : List Doc) (keys : List String)
    (err : ℕ → Option String) (i : ℕ) (k : String)
    (hk : ∀ it ∈ data, k ∉ it.map Prod.fst) (j : ℕ) (hj : j < s.length) :
    docGet ((saveRecords s data keys err i).1.getD j []) k = docGet (s.getD j []) k := by
  induction data generalizing s i with
  | nil => rfl
  | cons it rest ih =>
    cases h : err i with
    | some msg =>
      simp only [saveRecords, h]
      exact ih s (i + 1) (fun x hx => hk x (List.mem_cons_of_mem _ hx)) hj
    | none =>
      simp only [saveRecords, h]
      have hrev : docGet it.reverse k = none := by
        apply docGet_eq_none_of_not_mem
        rw [List.map_reverse, List.mem_reverse]
        exact hk it (List.mem_cons_self _ _)
      have hlen : j < (update_one s (filterQuery it keys) it).1.length := by
        rw [update_one_length]
        omega
      rw [ih _ (i + 1) (fun x hx => hk x (List.mem_cons_of_mem _ hx)) hlen,
        update_one_docGet_of_absent s (filterQuery it keys) it k hrev j hj]

theorem mem_of_mem_survivors (data : List Doc) (err : ℕ → Option String) (i : ℕ)
    (it : Doc) (h : it ∈ survivors data err i) : it ∈ data := by
  induction data generalizing i with
  | nil => cases h
  | cons it0 rest ih =>
    simp only [survivors] at h
    split at h
    · exact List.mem_cons_of_mem _ (ih (i + 1) h)
    · rcases List.mem_cons.mp h with h' | h'
      · exact h' ▸ List.mem_cons_self _ _
      · exact List.mem_cons_of_mem _ (ih (i + 1) h')

/-! ### Lemmas about database collections -/

theorem getCol_setCol_self (db : DB) (n : String) (s : Store) :
    getCol (setCol db n s) n = s := by
  induction db with
  | nil => simp [setCol, getCol]
  | cons p rest ih =>
    obtain ⟨n0, t0⟩ := p
    simp only [setCol]
    split
    · simp [getCol]
    · rename_i h
      simp only [getCol]
      rw [if_neg h]
      exact ih

theorem getCol_setCol_ne (db : DB) (n : String) (s : Store) (n' : String)
    (h : ¬n = n') :
    getCol (setCol db n s) n' = getCol db n' := by
  induction db with
  | nil => simp [setCol, getCol, h]
  | cons p rest ih =>
    obtain ⟨n0, t0⟩ := p
    simp only [setCol]
    split
    · rename_i h0
      simp only [getCol]
      rw [if_neg h, if_neg (fun e => h (h0.symm.trans e))]
    · simp only [getCol]
      split
      · rfl
      · exact ih

theorem getCol_save (db : DB) (data : List Doc) (c : String) (keys : List String)
    (err : ℕ → Option String) :
    getCol (save_to_collection db data c keys err).db c
      = if data = [] then getCol db c
        else (saveRecords (getCol db c) data keys err 0).1 := by
  by_cases h : data = []
  · simp [save_to_collection, h]
  · simp only [save_to_collection, if_neg h]
    exact getCol_setCol_self _ _ _

theorem getCol_save_ne (db : DB) (data : List Doc) (c : String) (keys : List String)
    (err : ℕ → Option String) (c' : String) (h : ¬c = c') :
    getCol (save_to_collection db data c keys err).db c' = getCol db c' := by
  by_cases hd : data = []
  · simp [save_to_collection, hd]
  · simp only [save_to_collection, if_neg hd]
    exact getCol_setCol_ne db c _ c' h

theorem getCol_save_congr (db db' : DB) (data : List Doc) (c : String)
    (keys : List String) (err : ℕ → Option String)
    (h : getCol db c = getCol db' c) :
    getCol (save_to_collection db data c keys err).db c
      = getCol (save_to_collection db' data c keys err).db c := by
  rw [getCol_save, getCol_save, h]

/-! ### Lemmas about `fetch_data` -/

theorem fetch_data_trace (http : String → List (String × Option String) → FetchOutcome)
    (e : String) (p : List (String × Option String)) :
    (fetch_data http e p).2 = [Ev.evFetch (BASE_URL ++ "/" ++ e)] := by
  simp only [fetch_data]
  cases h : http (BASE_URL ++ "/" ++ e) p <;> simp [h]

theorem save_upserted (db : DB) (data : List Doc) (c : String) (keys : List String)
    (err : ℕ → Option String) (hd : ¬data = []) :
    (save_to_collection db data c keys err).upserted
      = (saveRecords (getCol db c) data keys err 0).2.1 := by
  simp only [save_to_collection, if_neg hd]

/-! ### Claims -/

/-- C3 counterexample: the claim says an upsert for a record that omits a field
present in the matched stored document removes that field (full replace).  On
the code, which writes `{"$set": item}`, the omitted field survives: saving
`{k: "a"}` over a stored `{k: "a", extra: "keepme"}` leaves `extra` present,
not removed. -/
theorem C3_counterexample :
    docGet ((getCol (save_to_collection c3_db [c3_record] "c" ["k"] errNone).db "c").getD 0 [])
        "extra" = some (Value.vStr "keepme")
    ∧ ¬docGet ((getCol (save_to_collection c3_db [c3_record] "c" ["k"] errNone).db "c").getD 0 [])
        "extra" = none := by
  decide

/-- C3 (amended): the update uses `$set`, i.e. merge semantics — for every
stored document, a field absent from every record of the batch is left exactly
as it was (omitted fields are preserved, not dropped). -/
theorem C3_upsert_preserves_omitted_fields (db : DB) (data : List Doc) (c : String)
    (keys : List String) (err : ℕ → Option String) (k : String)
    (hk : ∀ it ∈ data, k ∉ it.map Prod.fst) (j : ℕ) (hj : j < (getCol db c).length) :
    docGet ((getCol (save_to_collection db data c keys err).db c).getD j []) k
      = docGet ((getCol db c).getD j []) k := by
  rw [getCol_save]
  by_cases hd : data = []
  · rw [if_pos hd]
  · rw [if_neg hd]
    exact saveRecords_docGet_of_absent (getCol db c) data keys err 0 k hk j hj

/-- Witness for C3 (amended) at the concrete store and record of the
counterexample. -/
theorem C3_witness :
    (∀ it ∈ [c3_record], "extra" ∉ it.map Prod.fst)
    ∧ 0 < (getCol c3_db "c").length
    ∧ docGet ((getCol (save_to_collection c3_db [c3_record] "c" ["k"] errNone).db "c").getD 0 [])
        "extra" = docGet ((getCol c3_db "c").getD 0 []) "extra" :=
  ⟨by decide, by decide,
    C3_upsert_preserves_omitted_fields c3_db [c3_record] "c" ["k"] errNone "extra"
      (by decide) 0 (by decide)⟩

/-- C4 counterexample: the claim says a failed operation is accumulated into a
failure count together with the failed record's identity for reporting.  In
the code the `except` branch only logs and continues: a run in which the
middle record's operation fails is observationally identical — final store,
`upserted_count`, `modified_count`, trace — to a run in which that record
never existed, so no failure count and no failed identity appear anywhere in
the result. -/
theorem C4_counterexample :
    save_to_collection [] c4_data "c" ["k"] errAt1
      = save_to_collection [] [[("k", Value.vStr "a")], [("k", Value.vStr "b")]] "c" ["k"]
          errNone := by
  decide

/-- C4 (amended): a per-operation store failure does not abort the remaining
operations — the loop continues with the next record and raises no fatal
error — but the failure is only logged, never accumulated: the run is exactly
the run over the non-failing records, with no failure count or failed-identity
list in the result. -/
theorem C4_failures_skipped_only (s : Store) (data : List Doc) (keys : List String)
    (err : ℕ → Option String) (i : ℕ) :
    saveRecords s data keys err i = saveRecords s (survivors data err i) keys errNone i :=
  saveRecords_survivors s data keys err i

/-- C5 counterexample: the claim says `fetch_data` fails with distinguishable
errors and returns an empty sequence only when the remote reports zero
matching records.  In the code a transport error is caught and returns the
empty list, bit-for-bit identical to a zero-record success, so the result is
empty without the remote reporting zero records and no error is raised. -/
theorem C5_counterexample :
    fetch_data (fun _ _ => FetchOutcome.transportError "connection refused") "sessions" []
      = fetch_data (fun _ _ => FetchOutcome.success []) "sessions" []
    ∧ (fetch_data (fun _ _ => FetchOutcome.transportError "connection refused")
        "sessions" []).1 = [] :=
  ⟨rfl, rfl⟩

/-- C5 (amended): `fetch_data` never fails: it catches transport errors and
non-success statuses alike and returns the empty list, the same value as a
zero-record success, so its result is empty exactly when the outcome was a
zero-record success, a transport error, or an HTTP error — the caller cannot
distinguish "zero fetched" from "fetch failed". -/
theorem C5_fetch_never_fails
    (http : String → List (String × Option String) → FetchOutcome)
    (endpoint : String) (params : List (String × Option String)) :
    (fetch_data http endpoint params).2 = [Ev.evFetch (BASE_URL ++ "/" ++ endpoint)]
    ∧ ((fetch_data http endpoint params).1 = [] ↔
        http (BASE_URL ++ "/" ++ endpoint) params = FetchOutcome.success []
        ∨ (∃ m, http (BASE_URL ++ "/" ++ endpoint) params = FetchOutcome.transportError m)
        ∨ (∃ st, http (BASE_URL ++ "/" ++ endpoint) params = FetchOutcome.httpError st)) := by
  cases h : http (BASE_URL ++ "/" ++ endpoint) params <;> simp [fetch_data, h]

/-- C6: calling `save_to_collection` with an empty record list returns at once
(`if not data: return`, lines 93-95): the database is untouched, both counters
are zero, no collection is accessed, and no error is raised. -/
theorem C6_empty_input_short_circuit (db : DB) (c : String) (keys : List String)
    (err : ℕ → Option String) :
    save_to_collection db [] c keys err = ⟨db, 0, 0, []⟩ := rfl

/-- C7: identity resolution is total and filter-exact: the filter built on
line 105 has exactly the declared key fields as its fields, in order, each
mapped to the record's value for that field, or to null when the record lacks
it (`dict.get` returns `None`, never raises); being a total Lean function,
resolution raises no exception for any record. -/
theorem C7_filter_exact_and_total (item : Doc) (keys : List String) :
    (filterQuery item keys).map Prod.fst = keys
    ∧ ∀ k ∈ keys, docGet (filterQuery item keys) k
        = some ((docGet item k).getD Value.vNull) := by
  constructor
  · induction keys with
    | nil => rfl
    | cons k0 rest ih =>
      simp only [filterQuery, List.map_cons]
      exact congrArg (List.cons k0) ih
  · intro k hk
    exact docGet_filterQuery_of_mem item keys k hk

/-- Witness for C7: a record lacking the key field `"b"` resolves to an
explicit null filter entry. -/
theorem C7_witness :
    docGet (filterQuery [("a", Value.vStr "x")] ["a", "b"]) "b"
      = some ((docGet [("a", Value.vStr "x")] "b").getD Value.vNull) :=
  (C7_filter_exact_and_total [("a", Value.vStr "x")] ["a", "b"]).2 "b" (by decide)

/-- C9 counterexample: the claim says every record contributes to exactly one
of the inserted, updated, or failed counts.  Saving the same record twice from
an empty store gives `upserted_count = 1`, `modified_count = 0`, zero
failures: the second record matched but changed nothing and was counted
nowhere, so the counts sum to 1, not 2. -/
theorem C9_counterexample :
    (save_to_collection [] c9_data "c" ["k"] errNone).upserted = 1
    ∧ (save_to_collection [] c9_data "c" ["k"] errNone).modified = 0
    ∧ failedFrom c9_data errNone 0 = 0
    ∧ (save_to_collection [] c9_data "c" ["k"] errNone).upserted
        + (save_to_collection [] c9_data "c" ["k"] errNone).modified
        + failedFrom c9_data errNone 0 ≠ c9_data.length := by
  decide

/-- C9 (amended): each record contributes to at most one of the counts: an
operation is counted as inserted when nothing matched, as updated only when it
matched and actually changed the document (`result.modified_count > 0`), and a
matched-but-unchanged operation is counted nowhere, so inserted + updated +
failed never exceeds the batch size. -/
theorem C9_each_record_at_most_one_count (db : DB) (data : List Doc) (c : String)
    (keys : List String) (err : ℕ → Option String) :
    (save_to_collection db data c keys err).upserted
        + (save_to_collection db data c keys err).modified
        + failedFrom data err 0 ≤ data.length := by
  by_cases hd : data = []
  · subst hd
    simp [save_to_collection, failedFrom]
  · simp only [save_to_collection, if_neg hd]
    exact saveRecords_counts_le (getCol db c) data keys err 0

/-- C1: ingestion is idempotent.  For every database state, batch, key list,
and (shared) store-failure oracle, applying `save_to_collection` a second time
with the same records and the same unique keys upserts zero new documents
(`upserted_count = 0`) and leaves the collection's document count unchanged.
The records are assumed to have no duplicate field names, as every Python
`dict` does. -/
theorem C1_ingestion_idempotent (db : DB) (data : List Doc) (c : String)
    (keys : List String) (err : ℕ → Option String)
    (hn : ∀ it ∈ data, NodupKeys it) :
    (save_to_collection (save_to_collection db data c keys err).db data c keys err).upserted = 0
    ∧ (getCol (save_to_collection (save_to_collection db data c keys err).db
          data c keys err).db c).length
        = (getCol (save_to_collection db data c keys err).db c).length := by
  by_cases hd : data = []
  · subst hd
    exact ⟨rfl, rfl⟩
  · have hn' : ∀ it ∈ survivors data err 0, NodupKeys it :=
      fun it h => hn it (mem_of_mem_survivors data err 0 it h)
    have h1 : getCol (save_to_collection db data c keys err).db c
        = (saveRecords (getCol db c) data keys err 0).1 := by
      rw [getCol_save, if_neg hd]
    have hmatches : ∀ it ∈ survivors data err 0,
        ∃ d ∈ (saveRecords (getCol db c) data keys err 0).1,
          keyProj d keys = keyProj it keys := by
      intro it hit
      rw [saveRecords_survivors]
      exact saveRecords_creates_matches (getCol db c) (survivors data err 0) keys 0 hn' it hit
    have h3 := saveRecords_no_new (saveRecords (getCol db c) data keys err 0).1
      (survivors data err 0) keys 0 hn' hmatches
    constructor
    · rw [save_upserted _ _ _ _ _ hd, h1, saveRecords_survivors]
      exact h3.1
    · rw [getCol_save, if_neg hd, h1, saveRecords_survivors, h3.2]

/-- Witness for C1: saving the one-record batch twice from the empty store
inserts on the first pass and upserts nothing on the second. -/
theorem C1_witness :
    (∀ it ∈ [c3_record], NodupKeys it)
    ∧ (save_to_collection (save_to_collection [] [c3_record] "c" ["k"] errNone).db
        [c3_record] "c" ["k"] errNone).upserted = 0
    ∧ (getCol (save_to_collection (save_to_collection [] [c3_record] "c" ["k"] errNone).db
          [c3_record] "c" ["k"] errNone).db "c").length
        = (getCol (save_to_collection [] [c3_record] "c" ["k"] errNone).db "c").length :=
  ⟨by decide, C1_ingestion_idempotent [] [c3_record] "c" ["k"] errNone (by decide)⟩

/-- C2: identity stability and last-write-wins.  Two records with equal key
projections upsert into the same stored document — processing the second one
adds no document beyond the first — and in the concrete scenario the two lap
records with key fields [session_key, driver_number, lap_number] leave exactly
one stored document, whose `time` is 90.8 (the second record wins). -/
theorem C2_identity_stability (s : Store) (keys : List String) (it1 it2 : Doc)
    (h1 : NodupKeys it1) (h2 : NodupKeys it2)
    (hk : keyProj it1 keys = keyProj it2 keys) :
    (saveRecords s [it1, it2] keys errNone 0).1.length
        = (saveRecords s [it1] keys errNone 0).1.length
    ∧ (save_to_collection [] [lapRec1, lapRec2] "laps" lapKeys errNone).db
        = [("laps", [lapRec2])]
    ∧ docGet lapRec2 "time" = some (Value.vNum 90.8) := by
  refine ⟨?_, by decide, ?_⟩
  · have hex : ∃ d ∈ (update_one s (filterQuery it1 keys) it1).1,
        keyProj d keys = keyProj it2 keys := by
      rcases update_one_creates_match s it1 keys h1 with ⟨d, hd, hp⟩
      exact ⟨d, hd, hp.trans hk⟩
    have hm : ∃ d ∈ (update_one s (filterQuery it1 keys) it1).1,
        matchesFilter d (filterQuery it2 keys) = true := by
      rcases hex with ⟨d, hd, hp⟩
      exact ⟨d, hd, (matchesFilter_filterQuery d it2 keys).mpr hp⟩
    have hup := update_one_not_upserted (update_one s (filterQuery it1 keys) it1).1
      (filterQuery it2 keys) it2 hm
    show (update_one (update_one s (filterQuery it1 keys) it1).1
        (filterQuery it2 keys) it2).1.length
      = (update_one s (filterQuery it1 keys) it1).1.length
    rw [update_one_length, hup]
    simp
  · have h : docGet lapRec2 "time" = some (Value.vNum (mkRat 908 10)) := by decide
    rw [h]
    norm_num

/-- Witness for C2: the two concrete lap records have nodup fields and equal
key projections, and saving both from an empty store yields a store of the
same size as saving only the first. -/
theorem C2_witness :
    NodupKeys lapRec1 ∧ NodupKeys lapRec2
    ∧ keyProj lapRec1 lapKeys = keyProj lapRec2 lapKeys
    ∧ (saveRecords [] [lapRec1, lapRec2] lapKeys errNone 0).1.length
        = (saveRecords [] [lapRec1] lapKeys errNone 0).1.length :=
  ⟨by decide, by decide, by decide,
    (C2_identity_stability [] lapKeys lapRec1 lapRec2 (by decide) (by decide) (by decide)).1⟩

/-- C8 (code bug): the claim — and the spec — require that once a connection
is obtained, the three jobs run regardless of any earlier job's fetch outcome.
The code cannot deliver this: on every successful connection, `if not db:`
(line 134) truth-tests a PyMongo `Database`, which raises
`NotImplementedError`, so `main` crashes before the first job and no fetch or
save ever runs, whatever the HTTP and store oracles are. -/
theorem C8_main_crashes_on_success (db0 : DB) (u : String) (sk : Option String)
    (http : String → List (String × Option String) → FetchOutcome)
    (errS errD errL : ℕ → Option String) (hu : ¬u = "") :
    main' db0 (some u) true sk http errS errD errL
      = Except.error
          "NotImplementedError: Database objects do not implement truth value testing" := by
  have hconn : connect_to_mongo (some u) DB_NAME true db0 = some db0 := by
    simp [connect_to_mongo, hu]
  simp [main', hconn]

/-- Witness for C8: a concrete run with a valid URI and a succeeding
connection check crashes before fetching anything. -/
theorem C8_witness :
    ¬"mongodb://localhost:27017" = ""
    ∧ main' [] (some "mongodb://localhost:27017") true none httpOk errNone errNone errNone
        = Except.error
            "NotImplementedError: Database objects do not implement truth value testing" :=
  ⟨by decide, C8_main_crashes_on_success [] "mongodb://localhost:27017" none httpOk
    errNone errNone errNone (by decide)⟩

/-- C10: `connect_to_mongo` returns `None` exactly when the URI is missing or
empty or the connection check fails (it never raises: every `PyMongoError` is
caught), and whenever it returns `None`, `main` returns at once: the database
is untouched and no fetch or store operation is performed (empty trace). -/
theorem C10_connect_failure_short_circuits (db0 : DB) (uri : Option String)
    (connOk : Bool) (sk : Option String)
    (http : String → List (String × Option String) → FetchOutcome)
    (eS eD eL : ℕ → Option String) :
    (connect_to_mongo uri DB_NAME connOk db0 = none
        ↔ uri = none ∨ uri = some "" ∨ connOk = false)
    ∧ (connect_to_mongo uri DB_NAME connOk db0 = none →
        main' db0 uri connOk sk http eS eD eL = Except.ok (db0, [])) := by
  constructor
  · constructor
    · intro hnone
      by_cases h : uri = none ∨ uri = some ""
      · rcases h with h | h
        · exact Or.inl h
        · exact Or.inr (Or.inl h)
      · unfold connect_to_mongo at hnone
        rw [if_neg h] at hnone
        cases hc : connOk
        · exact Or.inr (Or.inr rfl)
        · rw [hc] at hnone
          simp at hnone
    · intro h
      unfold connect_to_mongo
      rcases h with h | h | h
      · rw [if_pos (Or.inl h)]
      · rw [if_pos (Or.inr h)]
      · rw [h]
        split <;> rfl
  · intro h
    simp only [main', h]

/-- Witness for C10: with the URI unset, `connect_to_mongo` yields `none` and
`main` returns normally with the untouched database and an empty trace. -/
theorem C10_witness :
    main' [] none false none httpOk errNone errNone errNone = Except.ok ([], []) :=
  (C10_connect_failure_short_circuits [] none false none httpOk errNone errNone errNone).2
    (by decide)
